import Mathlib

/-!
A shallow embedding of the core of the `rlox` tree-walking interpreter
(scanner, recursive-descent parsing, evaluator with a lexically scoped
environment chain), translated from `src/scanner.rs`, `src/parser.rs`,
`src/vm.rs`, `src/environment.rs` and `src/ast.rs`.

Modelling conventions:
* Rust `f64` is modelled by the type `F64` below: NaN, signed infinities, and
  finite values as exact rationals together with a sign flag that
  distinguishes `-0.0` from `0.0`.  IEEE `==` and `partial_cmp` are captured
  exactly on the cases the program exercises (NaN is not equal to and not
  ordered with anything, `-0.0 == 0.0`); finite arithmetic is exact rational
  arithmetic, which agrees with the source on everything the claims observe.
* Rust byte cursors into a `&str` are modelled by `Nat` byte offsets over a
  `List Char` source, using `Char.utf8Size`; slicing a string at a byte range
  that is out of bounds or not on a character boundary is a Rust panic and is
  modelled by `Option`/dedicated `panicked` outcomes, as are `unwrap` calls
  and `usize` underflow.
* `Vec`/`HashMap` mutation is modelled by explicit state passing.  A scope's
  `HashMap<String, Value>` becomes an association list whose insert replaces
  an existing key in place; every observation made by the program goes
  through key lookup, so the list order is not observable.
* Loops (`Scanner::scan`, `Parser::parse`, `while` statements, the
  mutually recursive descent) are run on explicit fuel; running out of fuel
  is the distinguished outcome `fuelOut` and is never identified with any
  behaviour of the program.
-/

namespace RLox

/-- Model of Rust `f64`: NaN, signed infinity, or a finite value given as an
exact rational plus a flag marking a negative zero.  For nonzero finite
values the flag is redundant and ignored by every operation. -/
inductive F64 where
  | nan : F64
  | inf (neg : Bool) : F64
  | fin (q : ℚ) (negZero : Bool) : F64
deriving DecidableEq, Repr

namespace F64

/-- IEEE-754 `==` on `f64` (Rust `PartialEq`): NaN compares unequal to
everything, `-0.0 == 0.0`, finite values compare by numeric value. -/
def beq : F64 → F64 → Bool
  | .fin q _, .fin r _ => q == r
  | .inf a, .inf b => a == b
  | _, _ => false

/-- IEEE-754 `partial_cmp` on `f64`: `none` whenever either side is NaN. -/
def cmp? : F64 → F64 → Option Ordering
  | .nan, _ => none
  | _, .nan => none
  | .inf a, .inf b => if a == b then some .eq else if a then some .lt else some .gt
  | .inf a, .fin _ _ => some (if a then .lt else .gt)
  | .fin _ _, .inf b => some (if b then .gt else .lt)
  | .fin q _, .fin r _ => some (compare q r)

/-- IEEE negation. -/
def neg : F64 → F64
  | .nan => .nan
  | .inf b => .inf (!b)
  | .fin q s => .fin (-q) (!s)

/-- Addition; finite cases are exact (the claims never observe rounding). -/
def add : F64 → F64 → F64
  | .nan, _ => .nan
  | _, .nan => .nan
  | .inf a, .inf b => if a == b then .inf a else .nan
  | .inf a, .fin _ _ => .inf a
  | .fin _ _, .inf b => .inf b
  | .fin q s, .fin r t => .fin (q + r) (s && t)

/-- Subtraction, as addition of the negation. -/
def sub (a b : F64) : F64 := add a (neg b)

/-- Multiplication; finite cases are exact. -/
def mul : F64 → F64 → F64
  | .nan, _ => .nan
  | _, .nan => .nan
  | .inf a, .inf b => .inf (a != b)
  | .inf a, .fin r _ => if r = 0 then .nan else .inf (a != decide (r < 0))
  | .fin q _, .inf b => if q = 0 then .nan else .inf (b != decide (q < 0))
  | .fin q s, .fin r t => .fin (q * r) (s != t)

/-- Division; the finite/finite case with a nonzero divisor is exact. -/
def div : F64 → F64 → F64
  | .nan, _ => .nan
  | _, .nan => .nan
  | .inf a, .inf _ => if a then .nan else .nan
  | .inf a, .fin r _ => .inf (a != decide (r < 0))
  | .fin _ s, .inf b => .fin 0 (s != b)
  | .fin q s, .fin r t =>
    if r = 0 then (if q = 0 then .nan else .inf ((decide (q < 0)) != t))
    else .fin (q / r) (s != t)

/-- Rendering used by Rust `{}` on `f64` inside error messages; a simplified
model (claims never compare message text containing numbers). -/
def display : F64 → String
  | .nan => "NaN"
  | .inf b => if b then "-inf" else "inf"
  | .fin q s => if q = 0 && s then "-0" else toString q

end F64

/-- The file `token.rs` is not part of `src/`.  Modelled from the spec (§3 Token) and
pinned by every use in `scanner.rs`, `parser.rs` and `vm.rs`: one variant per
lexical category, each carrying its 1-based source line; boolean literals
also carry their value; a single end-of-input sentinel. -/
structure Identifier where
  value : String
  line : Nat
deriving DecidableEq, Repr

/-- Modelled from the spec: the token type of the missing `token.rs`,
fully determined by its uses in the scanner, the recursive-descent
functions and the evaluator. -/
inductive Token where
  | leftParen (line : Nat)
  | rightParen (line : Nat)
  | leftBrace (line : Nat)
  | rightBrace (line : Nat)
  | comma (line : Nat)
  | dot (line : Nat)
  | minus (line : Nat)
  | plus (line : Nat)
  | semicolon (line : Nat)
  | slash (line : Nat)
  | star (line : Nat)
  | bang (line : Nat)
  | bangEqual (line : Nat)
  | equal (line : Nat)
  | equalEqual (line : Nat)
  | greater (line : Nat)
  | greaterEqual (line : Nat)
  | less (line : Nat)
  | lessEqual (line : Nat)
  | identifier (id : Identifier)
  | string (line : Nat) (value : String)
  | number (line : Nat) (value : F64)
  | kwAnd (line : Nat)
  | kwClass (line : Nat)
  | kwElse (line : Nat)
  | kwFalse (line : Nat) (value : Bool)
  | kwFor (line : Nat)
  | kwFun (line : Nat)
  | kwIf (line : Nat)
  | kwNil (line : Nat)
  | kwOr (line : Nat)
  | kwPrint (line : Nat)
  | kwReturn (line : Nat)
  | kwSuper (line : Nat)
  | kwThis (line : Nat)
  | kwTrue (line : Nat) (value : Bool)
  | kwVar (line : Nat)
  | kwWhile (line : Nat)
  | eof
deriving DecidableEq, Repr

namespace Token

/-- Modelled from the spec: the `line()` accessor on tokens.  Every token
carries its source line; the sentinel has none and reports 0 (the value on
`Eof` is unobservable in the claims). -/
def line : Token → Nat
  | .leftParen l | .rightParen l | .leftBrace l | .rightBrace l | .comma l
  | .dot l | .minus l | .plus l | .semicolon l | .slash l | .star l
  | .bang l | .bangEqual l | .equal l | .equalEqual l
  | .greater l | .greaterEqual l | .less l | .lessEqual l
  | .string l _ | .number l _
  | .kwAnd l | .kwClass l | .kwElse l | .kwFalse l _ | .kwFor l | .kwFun l
  | .kwIf l | .kwNil l | .kwOr l | .kwPrint l | .kwReturn l | .kwSuper l
  | .kwThis l | .kwTrue l _ | .kwVar l | .kwWhile l => l
  | .identifier id => id.line
  | .eof => 0

/-- A short name for a token, standing in for Rust `{:?}` in the
`UnknownOperator` messages (claims never inspect that text). -/
def debugName : Token → String
  | .leftParen _ => "LeftParen" | .rightParen _ => "RightParen"
  | .leftBrace _ => "LeftBrace" | .rightBrace _ => "RightBrace"
  | .comma _ => "Comma" | .dot _ => "Dot" | .minus _ => "Minus"
  | .plus _ => "Plus" | .semicolon _ => "Semicolon" | .slash _ => "Slash"
  | .star _ => "Star" | .bang _ => "Bang" | .bangEqual _ => "BangEqual"
  | .equal _ => "Equal" | .equalEqual _ => "EqualEqual"
  | .greater _ => "Greater" | .greaterEqual _ => "GreaterEqual"
  | .less _ => "Less" | .lessEqual _ => "LessEqual"
  | .identifier _ => "Identifier" | .string _ _ => "String"
  | .number _ _ => "Number" | .kwAnd _ => "And" | .kwClass _ => "Class"
  | .kwElse _ => "Else" | .kwFalse _ _ => "False" | .kwFor _ => "For"
  | .kwFun _ => "Fun" | .kwIf _ => "If" | .kwNil _ => "Nil"
  | .kwOr _ => "Or" | .kwPrint _ => "Print" | .kwReturn _ => "Return"
  | .kwSuper _ => "Super" | .kwThis _ => "This" | .kwTrue _ _ => "True"
  | .kwVar _ => "Var" | .kwWhile _ => "While" | .eof => "Eof"

end Token

/-- From `ast.rs`: `LiteralValue`: tagged variant of String, Number, Boolean, Nil. -/
inductive LiteralValue where
  | string (s : String)
  | number (n : F64)
  | boolean (b : Bool)
  | nil
deriving DecidableEq, Repr

/-- From `ast.rs`: `Expr` (boxes dropped).  `variableExpr` is `Expr::Variable`,
`assignment` is `Expr::Assignment`; operators keep the full token, as in the
source. -/
inductive Expr where
  | binary (left : Expr) (operator : Token) (right : Expr)
  | grouping (expression : Expr)
  | literal (value : LiteralValue)
  | unary (operator : Token) (right : Expr)
  | variableExpr (token : Identifier)
  | assignment (name : Identifier) (value : Expr)
  | logical (left : Expr) (operator : Token) (right : Expr)
deriving DecidableEq, Repr

/-- From `ast.rs`: `Statement`.  The `Block`, `If` and `While` variants are used by
`parser.rs` and `vm.rs` but their declarations are not in the provided
`ast.rs` text; their fields are modelled from the spec (§3 Statement node)
and pinned by every construction and match in the source. -/
inductive Statement where
  | expression (e : Expr)
  | print (e : Expr)
  | variableStmt (name : Identifier) (value : Expr)
  | block (statements : List Statement)
  | ifStmt (condition : Expr) (thenBranch : Statement) (elseBranch : Option Statement)
  | whileStmt (condition : Expr) (body : Statement)

/-- From `vm.rs`: `Value`. -/
inductive Value where
  | number (n : F64)
  | string (s : String)
  | boolean (b : Bool)
  | nil
deriving DecidableEq, Repr

/-- From `vm.rs`: `RuntimeError`. -/
inductive RuntimeError where
  | argumentError (msg : String)
  | unknownOperatorError (msg : String)
  | zeroDivision (msg : String)
  | undefinedVariable (msg : String)
deriving DecidableEq, Repr

/-- A single quote character, used when rebuilding the source's message
strings. -/
def sq : String := String.singleton (Char.ofNat 39)

namespace Value

/-- Rust `Display for Value`; numbers use the simplified `F64.display`. -/
def display : Value → String
  | .number n => n.display
  | .string s => s
  | .boolean b => if b then "true" else "false"
  | .nil => "nil"

/-- Rust `impl Neg for Value`. -/
def negV : Value → Except RuntimeError Value
  | .number n => .ok (.number n.neg)
  | other => .error (.argumentError ("Expected number, but got " ++ other.display))

/-- Rust `impl Sub for Value`. -/
def subV : Value → Value → Except RuntimeError Value
  | .number l, .number r => .ok (.number (F64.sub l r))
  | .number _, other => .error (.argumentError ("Expected number, but got " ++ other.display))
  | left, right =>
    .error (.argumentError ("Invalid operands for -: " ++ left.display ++ " and " ++ right.display))

/-- Rust `impl Div for Value`.  The Rust arm `(Number(l), Number(0.0))` matches the
float literal pattern by IEEE `==`, so a `-0.0` divisor also selects the
`ZeroDivision` arm; this is `F64.beq r (.fin 0 false)` here. -/
def divV : Value → Value → Except RuntimeError Value
  | .number l, .number r =>
    if F64.beq r (.fin 0 false) then
      .error (.zeroDivision ("Cannot divide " ++ l.display ++ " by zero"))
    else
      .ok (.number (F64.div l r))
  | .number _, other => .error (.argumentError ("Expected number, but got " ++ other.display))
  | left, right =>
    .error (.argumentError ("Invalid operands for /: " ++ left.display ++ " and " ++ right.display))

/-- Rust `impl Mul for Value`. -/
def mulV : Value → Value → Except RuntimeError Value
  | .number l, .number r => .ok (.number (F64.mul l r))
  | .number _, other => .error (.argumentError ("Expected number, but got " ++ other.display))
  | left, right =>
    .error (.argumentError ("Invalid operands for *: " ++ left.display ++ " and " ++ right.display))

/-- Rust `impl Add for Value`. -/
def addV : Value → Value → Except RuntimeError Value
  | .number l, .number r => .ok (.number (F64.add l r))
  | .string l, .string r => .ok (.string (l ++ r))
  | .string _, other => .error (.argumentError ("Expected string, but got " ++ other.display))
  | .number _, other => .error (.argumentError ("Expected number, but got " ++ other.display))
  | left, right =>
    .error (.argumentError ("Invalid operands for +: " ++ left.display ++ " and " ++ right.display))

/-- Rust `impl PartialEq for Value`, written out case by case as in the source. -/
def beq : Value → Value → Bool
  | .number l, .number r => F64.beq l r
  | .number _, .string _ => false
  | .number _, .boolean _ => false
  | .number _, .nil => false
  | .string l, .string r => l == r
  | .string _, .number _ => false
  | .string _, .boolean _ => false
  | .string _, .nil => false
  | .boolean l, .boolean r => l == r
  | .boolean _, .number _ => false
  | .boolean _, .string _ => false
  | .boolean _, .nil => false
  | .nil, .nil => true
  | .nil, .number _ => false
  | .nil, .string _ => false
  | .nil, .boolean _ => false

/-- Rust `impl PartialOrd for Value`: only Number pairs are ordered. -/
def pcmp : Value → Value → Option Ordering
  | .number l, .number r => F64.cmp? l r
  | _, _ => none

/-- Rust `<` from `PartialOrd`. -/
def ltV (l r : Value) : Bool := pcmp l r == some .lt

/-- Rust `<=` from `PartialOrd`. -/
def leV (l r : Value) : Bool := pcmp l r == some .lt || pcmp l r == some .eq

/-- Rust `>` from `PartialOrd`. -/
def gtV (l r : Value) : Bool := pcmp l r == some .gt

/-- Rust `>=` from `PartialOrd`. -/
def geV (l r : Value) : Bool := pcmp l r == some .gt || pcmp l r == some .eq

/-- Whether a value is a `Number`. -/
def isNumber : Value → Bool
  | .number _ => true
  | _ => false

end Value

/-- One scope's name→value map (`HashMap<String, Value>` in
`environment.rs`), as an association list whose insert replaces in place. -/
abbrev Scope := List (String × Value)

/-- Rust `HashMap::get`. -/
def scopeGet (s : Scope) (n : String) : Option Value :=
  (s.find? (fun p => p.1 == n)).map (·.2)

/-- Rust `HashMap::insert`: overwrite the binding if the key is present, add it
otherwise. -/
def scopeInsert (s : Scope) (n : String) (v : Value) : Scope :=
  match s with
  | [] => [(n, v)]
  | (k, w) :: rest => if k == n then (k, v) :: rest else (k, w) :: scopeInsert rest n v

/-- From `environment.rs`: `Environment`: a map plus an optional enclosing
environment.  The `Rc<RefCell<_>>` sharing of the Rust chain is linear in
every use the evaluator makes of it, so the chain is modelled by this
value-type with explicit threading.  The Rust field
`enclosing : Option<Env>` is split into the two constructors (`global` is
`enclosing == None`, `nested` is `enclosing == Some`), which is exactly the
case split every function of `environment.rs` performs on it. -/
inductive Environment where
  | global (values : Scope)
  | nested (values : Scope) (enclosing : Environment)
deriving DecidableEq, Repr

namespace Environment

/-- The scope stored at this link. -/
def values : Environment → Scope
  | .global vs => vs
  | .nested vs _ => vs

/-- Rust `Environment::new_global` (`Environment::new(None)`). -/
def newGlobal : Environment := .global []

/-- Rust `Environment::define`. -/
def define : Environment → String → Value → Environment
  | .global vs, n, v => .global (scopeInsert vs n v)
  | .nested vs encl, n, v => .nested (scopeInsert vs n v) encl

/-- Rust `Environment::get`: innermost map first, then the enclosing chain. -/
def get : Environment → String → Except RuntimeError Value
  | .global vs, n =>
    match scopeGet vs n with
    | some v => .ok v
    | none => .error (.undefinedVariable (n ++ " variable is not defined"))
  | .nested vs encl, n =>
    match scopeGet vs n with
    | some v => .ok v
    | none => get encl n

/-- Rust `Environment::assign`: overwrite in the nearest map holding the name. -/
def assign : Environment → String → Value → Except RuntimeError Environment
  | .global vs, n, v =>
    if (scopeGet vs n).isSome then .ok (.global (scopeInsert vs n v))
    else .error (.undefinedVariable (n ++ " variable is not defined"))
  | .nested vs encl, n, v =>
    if (scopeGet vs n).isSome then .ok (.nested (scopeInsert vs n v) encl)
    else
      match assign encl n v with
      | .ok e2 => .ok (.nested vs e2)
      | .error err => .error err

/-- The chain of scopes, innermost first (used only to state claims). -/
def scopes : Environment → List Scope
  | .global vs => [vs]
  | .nested vs encl => vs :: scopes encl

end Environment

/-- The value of the nearest binding of `n`, walking the chain from the
innermost scope outward.  This is the spec's description of lookup, written
independently of `Environment.get`, and used to state the claims. -/
def nearestLookup (env : Environment) (n : String) : Option Value :=
  env.scopes.findSome? (fun s => scopeGet s n)

/-- Rust `Vm::truthy`. -/
def truthy : Value → Bool
  | .nil => false
  | .boolean b => b
  | _ => true

/-- Outcome of evaluating an expression: the resulting value or runtime
error, together with the environment as mutated so far (mutations made
before a failure persist, as they do through the `Rc<RefCell<_>>` chain). -/
inductive ExprOut where
  | ok (v : Value) (env : Environment)
  | err (e : RuntimeError) (env : Environment)

/-- The environment carried by an expression outcome. -/
def ExprOut.envOf : ExprOut → Environment
  | .ok _ env => env
  | .err _ env => env

/-- The operator dispatch of `Vm::visit_binary`, applied after both operands
have been evaluated. -/
def applyBinary (op : Token) (l r : Value) : Except RuntimeError Value :=
  match op with
  | .minus _ => Value.subV l r
  | .slash _ => Value.divV l r
  | .star _ => Value.mulV l r
  | .plus _ => Value.addV l r
  | .greater _ => .ok (.boolean (Value.gtV l r))
  | .greaterEqual _ => .ok (.boolean (Value.geV l r))
  | .less _ => .ok (.boolean (Value.ltV l r))
  | .lessEqual _ => .ok (.boolean (Value.leV l r))
  | .bangEqual _ => .ok (.boolean (!Value.beq l r))
  | .equalEqual _ => .ok (.boolean (Value.beq l r))
  | _ => .error (.unknownOperatorError ("Unknown binary operator: " ++ op.debugName))

/-- Rust `impl Visitor for Vm`: expression evaluation, with the environment
threaded explicitly. -/
def evalExpr : Environment → Expr → ExprOut
  | env, .literal lv =>
    match lv with
    | .string s => .ok (.string s) env
    | .number n => .ok (.number n) env
    | .boolean b => .ok (.boolean b) env
    | .nil => .ok .nil env
  | env, .grouping e => evalExpr env e
  | env, .unary op r =>
    match evalExpr env r with
    | .ok v env1 =>
      match op with
      | .minus _ =>
        match Value.negV v with
        | .ok w => .ok w env1
        | .error e => .err e env1
      | .bang _ => .ok (.boolean (!truthy v)) env1
      | _ => .err (.unknownOperatorError ("Unknown unary operator: " ++ op.debugName)) env1
    | .err e env1 => .err e env1
  | env, .binary l op r =>
    match evalExpr env l with
    | .ok lv env1 =>
      match evalExpr env1 r with
      | .ok rv env2 =>
        match applyBinary op lv rv with
        | .ok v => .ok v env2
        | .error e => .err e env2
      | .err e env2 => .err e env2
    | .err e env1 => .err e env1
  | env, .variableExpr id =>
    match env.get id.value with
    | .ok v => .ok v env
    | .error e => .err e env
  | env, .assignment name rhs =>
    match evalExpr env rhs with
    | .ok v env1 =>
      match env1.assign name.value v with
      | .ok env2 => .ok v env2
      | .error e => .err e env1
    | .err e env1 => .err e env1
  | env, .logical l op r =>
    match evalExpr env l with
    | .ok v env1 =>
      match op with
      | .kwOr _ => if truthy v then .ok v env1 else evalExpr env1 r
      | _ => if !truthy v then .ok v env1 else evalExpr env1 r
    | .err e env1 => .err e env1

/-- Outcome of executing statements: final environment plus the lines printed
(in order); on a runtime error, the environment and output as they stood when
the error was raised. -/
inductive StmtOut where
  | ok (env : Environment) (out : List String)
  | err (e : RuntimeError) (env : Environment) (out : List String)
  | fuelOut

/-- Restoring the previous environment at the end of `Vm::execute_block`:
the saved `Rc` observes all mutations made through the inner scope's
enclosing link, so it is exactly the enclosing chain of the inner
environment when the body finished (normally or with an error). -/
def popScope : Environment → Environment
  | .nested _ prev => prev
  | e => e

/-- Mapping the body result of a block through the restoration on both exit
paths (`self.environment = previous` runs before `result` is returned). -/
def finishBlock : StmtOut → StmtOut
  | .ok env out => .ok (popScope env) out
  | .err e env out => .err e (popScope env) out
  | .fuelOut => .fuelOut

mutual

/-- Rust `impl StatementVisitor for Vm` (`visit_statement`), on fuel. -/
def execStmt : Nat → Environment → Statement → StmtOut
  | 0, _, _ => .fuelOut
  | f + 1, env, s =>
    match s with
    | .expression e =>
      match evalExpr env e with
      | .ok _ env1 => .ok env1 []
      | .err er env1 => .err er env1 []
    | .print e =>
      match evalExpr env e with
      | .ok v env1 => .ok env1 [v.display]
      | .err er env1 => .err er env1 []
    | .variableStmt name e =>
      match evalExpr env e with
      | .ok v env1 => .ok (env1.define name.value v) []
      | .err er env1 => .err er env1 []
    | .block ss => finishBlock (execStmts f (.nested [] env) ss)
    | .ifStmt c t els =>
      match evalExpr env c with
      | .ok v env1 =>
        if truthy v then execStmt f env1 t
        else
          match els with
          | some e2 => execStmt f env1 e2
          | none => .ok env1 []
      | .err er env1 => .err er env1 []
    | .whileStmt c b =>
      match evalExpr env c with
      | .ok v env1 =>
        if truthy v then
          match execStmt f env1 b with
          | .ok env2 out1 =>
            match execStmt f env2 (.whileStmt c b) with
            | .ok env3 out2 => .ok env3 (out1 ++ out2)
            | .err er env3 out2 => .err er env3 (out1 ++ out2)
            | .fuelOut => .fuelOut
          | .err er env2 out1 => .err er env2 out1
          | .fuelOut => .fuelOut
        else .ok env1 []
      | .err er env1 => .err er env1 []

/-- Rust `try_for_each` over a statement list: stop at the first error, keeping
the output printed so far. -/
def execStmts : Nat → Environment → List Statement → StmtOut
  | 0, _, _ => .fuelOut
  | _ + 1, env, [] => .ok env []
  | f + 1, env, s :: rest =>
    match execStmt f env s with
    | .ok env1 out1 =>
      match execStmts f env1 rest with
      | .ok env2 out2 => .ok env2 (out1 ++ out2)
      | .err er env2 out2 => .err er env2 (out1 ++ out2)
      | .fuelOut => .fuelOut
    | .err er env1 out1 => .err er env1 out1
    | .fuelOut => .fuelOut

end

/-! ## Scanner (`scanner.rs`)

The Rust scanner walks a `Peekable<Chars>` iterator while separately
maintaining byte cursors `start`/`current` into the source.  Both are
modelled exactly: `rest` is the not-yet-consumed suffix of the character
iterator, `start`/`current` are byte offsets.  The source keeps them in sync
only on the happy path; the model reproduces the desynchronisations
(comments, the fraction scan, the closing quote) byte for byte. -/

/-- Total UTF-8 byte length of a character list (`str::len`). -/
def utf8Len (cs : List Char) : Nat := (cs.map Char.utf8Size).sum

/-- Drop `n` bytes from the front; `none` when `n` overruns the list or does
not land on a character boundary (a Rust slicing panic). -/
def byteDrop? : List Char → Nat → Option (List Char)
  | cs, 0 => some cs
  | [], _ + 1 => none
  | c :: rest, n + 1 =>
    if c.utf8Size ≤ n + 1 then byteDrop? rest (n + 1 - c.utf8Size) else none

/-- Take `n` bytes from the front; `none` on overrun or a split character. -/
def byteTake? : List Char → Nat → Option (List Char)
  | _, 0 => some []
  | [], _ + 1 => none
  | c :: rest, n + 1 =>
    if c.utf8Size ≤ n + 1 then (byteTake? rest (n + 1 - c.utf8Size)).map (c :: ·) else none

/-- Rust `&s[a..b]`: panics (`none`) when `a > b`, when the range overruns
the string, or when an end is not a character boundary. -/
def byteSlice? (cs : List Char) (a b : Nat) : Option (List Char) :=
  if a ≤ b then (byteDrop? cs a).bind (fun r => byteTake? r (b - a)) else none

/-- Parsing a lexeme with Rust `str::parse::<f64>()`, restricted to the
shapes this scanner can produce: an optional sign, digits, and at most one
point, with at least one digit.  Anything else (such as the lexeme `"+"`
produced by the desynchronised cursor) is `none`, i.e. the `unwrap` panics. -/
def parseF64? (cs : List Char) : Option F64 :=
  let (neg, rest) :=
    match cs with
    | '-' :: r => (true, r)
    | '+' :: r => (false, r)
    | r => (false, r)
  let intPart := rest.takeWhile Char.isDigit
  let afterInt := rest.dropWhile Char.isDigit
  let digitsVal : List Char → ℚ := fun ds =>
    ((ds.foldl (fun a c => a * 10 + (c.toNat - 48)) 0 : Nat) : ℚ)
  match afterInt with
  | [] =>
    if intPart.isEmpty then none
    else
      let q := digitsVal intPart
      some (.fin (if neg then -q else q) (neg && q == 0))
  | '.' :: frac =>
    if frac.all Char.isDigit && !(intPart.isEmpty && frac.isEmpty) then
      let q := digitsVal intPart + digitsVal frac / ((10 : ℚ) ^ frac.length)
      some (.fin (if neg then -q else q) (neg && q == 0))
    else none
  | _ => none

/-- The scanner state: emitted tokens, accumulated diagnostics, the full
source, the remaining character iterator, and the byte cursors and line
counter. -/
structure ScanSt where
  tokens : List Token
  errors : List String
  source : List Char
  rest : List Char
  start : Nat
  current : Nat
  line : Nat

/-- Rust `Scanner::advance`: pull one character from the iterator, adding its
UTF-8 length to `current`. -/
def ScanSt.adv (st : ScanSt) : Option Char × ScanSt :=
  match st.rest with
  | [] => (none, st)
  | c :: r => (some c, { st with rest := r, current := st.current + c.utf8Size })

/-- Rust `Scanner::match_char`: consume the next character iff it is `expected`;
the guard compares `current` against the source's byte length. -/
def ScanSt.matchChar (st : ScanSt) (expected : Char) : Bool × ScanSt :=
  if st.current ≥ utf8Len st.source then (false, st)
  else
    match st.rest with
    | c :: r =>
      if c == expected then (true, { st with rest := r, current := st.current + c.utf8Size })
      else (false, st)
    | [] => (false, st)

/-- Push a token. -/
def ScanSt.push (st : ScanSt) (t : Token) : ScanSt := { st with tokens := st.tokens ++ [t] }

/-- Push a diagnostic. -/
def ScanSt.pushErr (st : ScanSt) (e : String) : ScanSt := { st with errors := st.errors ++ [e] }

/-- The body of the string loop in `Scanner::string`: consume up to (not
including) the next `"` or the end of input, collecting the contents,
counting newlines, and advancing `current`.  Returns the collected value and
the updated iterator, cursor and line. -/
def stringBody : List Char → Nat → Nat → List Char × List Char × Nat × Nat
  | [], cur, ln => ([], [], cur, ln)
  | c :: r, cur, ln =>
    if c == '"' then ([], c :: r, cur, ln)
    else if c == '\n' then
      let (v, r2, c2, l2) := stringBody r (cur + 1) (ln + 1)
      ('\n' :: v, r2, c2, l2)
    else
      let (v, r2, c2, l2) := stringBody r (cur + c.utf8Size) ln
      (c :: v, r2, c2, l2)

/-- Rust `Scanner::string`.  Note the source adds `quote.len_utf8()` to `current`
a second time after `advance` has already counted the closing quote. -/
def scanStringTok (st : ScanSt) : ScanSt :=
  let (v, rest2, cur2, line2) := stringBody st.rest st.current st.line
  let st1 := { st with rest := rest2, current := cur2, line := line2 }
  match st1.adv with
  | (some q, st2) =>
    ({ st2 with current := st2.current + q.utf8Size }).push
      (.string st2.line (String.mk v))
  | (none, st2) => st2.pushErr ("Unterminated string at line " ++ toString st2.line)

/-- The leading digit loop of `Scanner::number`: `peek` + `advance` while the
next character is an ASCII digit. -/
def digitsLoop : List Char → Nat → List Char × Nat
  | [], cur => ([], cur)
  | c :: r, cur => if c.isDigit then digitsLoop r (cur + c.utf8Size) else (c :: r, cur)

/-- Rust `Scanner::number`.  The fractional part is read with `take_while`, which
also consumes (and drops) the first non-digit character from the iterator
while `current` is advanced only by the digits — the iterator runs ahead of
the byte cursor from then on.  Any slicing failure or a lexeme `parse`
failure is the corresponding Rust panic (`none`). -/
def scanNumberTok (st : ScanSt) : Option ScanSt := do
  let (rest1, cur1) := digitsLoop st.rest st.current
  let st1 := { st with rest := rest1, current := cur1 }
  let tail ← byteSlice? st1.source st1.current (utf8Len st1.source)
  let st2 ←
    match tail with
    | '.' :: _ => do
      let tail2 ← byteSlice? st1.source (st1.current + 1) (utf8Len st1.source)
      match tail2.head? with
      | some d =>
        if d.isDigit then
          let (_, st2) := st1.adv
          let digits := st2.rest.takeWhile Char.isDigit
          let afterDigits := st2.rest.dropWhile Char.isDigit
          let rest3 := match afterDigits with
            | [] => []
            | _ :: r => r
          pure { st2 with rest := rest3, current := st2.current + digits.length }
        else pure st1
      | none => pure st1
    | _ => pure st1
  let lexeme ← byteSlice? st2.source st2.start st2.current
  let value ← parseF64? lexeme
  pure (st2.push (.number st2.line value))

/-- The identifier loop of `Scanner::identifier`.  Rust uses the Unicode
`char::is_alphanumeric`; the model uses the ASCII `Char.isAlphanum`, which
agrees on every input the claims exercise. -/
def identLoop : List Char → Nat → List Char × Nat
  | [], cur => ([], cur)
  | c :: r, cur =>
    if c.isAlphanum || c == '_' then identLoop r (cur + c.utf8Size) else (c :: r, cur)

/-- The keyword table of `Scanner::identifier`. -/
def keywordOrIdent (text : String) (line : Nat) : Token :=
  if text == "and" then .kwAnd line
  else if text == "class" then .kwClass line
  else if text == "else" then .kwElse line
  else if text == "false" then .kwFalse line false
  else if text == "for" then .kwFor line
  else if text == "fun" then .kwFun line
  else if text == "if" then .kwIf line
  else if text == "nil" then .kwNil line
  else if text == "or" then .kwOr line
  else if text == "print" then .kwPrint line
  else if text == "return" then .kwReturn line
  else if text == "super" then .kwSuper line
  else if text == "this" then .kwThis line
  else if text == "true" then .kwTrue line true
  else if text == "var" then .kwVar line
  else if text == "while" then .kwWhile line
  else .identifier ⟨text, line⟩

/-- Rust `Scanner::identifier`: consume the run, slice the lexeme out of the
source by byte range (a panic when the cursor has desynchronised past the
end), and look it up in the keyword table. -/
def scanIdentTok (st : ScanSt) : Option ScanSt := do
  let (rest1, cur1) := identLoop st.rest st.current
  let st1 := { st with rest := rest1, current := cur1 }
  let lexeme ← byteSlice? st1.source st1.start st1.current
  pure (st1.push (keywordOrIdent (String.mk lexeme) st1.line))

/-- Rust `Scanner::scan_token`.  The `//`-comment arm uses `take_while`, which
consumes the terminating newline from the iterator without the `'\n'` arm
(and its line increment) ever seeing it, while `current` is advanced past
it. -/
def scanTok (st : ScanSt) : Option ScanSt :=
  match st.adv with
  | (none, st1) => some st1
  | (some c, st1) =>
    if c == '(' then some (st1.push (.leftParen st1.line))
    else if c == ')' then some (st1.push (.rightParen st1.line))
    else if c == '{' then some (st1.push (.leftBrace st1.line))
    else if c == '}' then some (st1.push (.rightBrace st1.line))
    else if c == ',' then some (st1.push (.comma st1.line))
    else if c == '.' then some (st1.push (.dot st1.line))
    else if c == '-' then some (st1.push (.minus st1.line))
    else if c == '+' then some (st1.push (.plus st1.line))
    else if c == ';' then some (st1.push (.semicolon st1.line))
    else if c == '*' then some (st1.push (.star st1.line))
    else if c == '!' then
      let (m, st2) := st1.matchChar '='
      some (st2.push (if m then .bangEqual st2.line else .bang st2.line))
    else if c == '=' then
      let (m, st2) := st1.matchChar '='
      some (st2.push (if m then .equalEqual st2.line else .equal st2.line))
    else if c == '<' then
      let (m, st2) := st1.matchChar '='
      some (st2.push (if m then .lessEqual st2.line else .less st2.line))
    else if c == '>' then
      let (m, st2) := st1.matchChar '='
      some (st2.push (if m then .greaterEqual st2.line else .greater st2.line))
    else if c == '/' then
      let (m, st2) := st1.matchChar '/'
      if m then
        let comment := st2.rest.takeWhile (· != '\n')
        let afterComment := st2.rest.dropWhile (· != '\n')
        let rest3 := match afterComment with
          | [] => []
          | _ :: r => r
        some { st2 with
               rest := rest3,
               current := st2.current + utf8Len comment + 1 }
      else some (st2.push (.slash st2.line))
    else if c == ' ' || c == '\r' || c == '\t' then some st1
    else if c == '\n' then some { st1 with line := st1.line + 1 }
    else if c == '"' then some (scanStringTok st1)
    else if c.isDigit then scanNumberTok st1
    else if c.isAlphanum || c == '_' then scanIdentTok st1
    else
      some (st1.pushErr
        ("Unexpected character " ++ sq ++ String.singleton c ++ sq ++
          " at line " ++ toString st1.line))

/-- Outcome of running the scanner. -/
inductive ScanOut where
  | ok (tokens : List Token) (errors : List String)
  | panicked
  | fuelOut
deriving Repr

/-- The `while self.current < self.source.len()` loop of `Scanner::scan`,
with the Eof sentinel appended at exit; each iteration first resets
`start := current`. -/
def scanLoop : Nat → ScanSt → ScanOut
  | 0, _ => .fuelOut
  | f + 1, st =>
    if st.current < utf8Len st.source then
      match scanTok { st with start := st.current } with
      | none => .panicked
      | some st1 => scanLoop f st1
    else .ok (st.tokens ++ [.eof]) st.errors

/-- Running the scanner on a source string with a fresh diagnostics list
(`Scanner::new` + `scan` + `into_tokens`). -/
def scanF (fuel : Nat) (source : List Char) : ScanOut :=
  scanLoop fuel ⟨[], [], source, source, 0, 0, 1⟩

/-! ## Parser (`parser.rs`)

Recursive descent with explicit fuel.  `ParseError` is a one-variant enum
whose `Display` is its message, so errors are carried as the message string.
`Parser::previous` computes `self.current - 1` on a `usize`: with
`current == 0` that underflows (debug) or indexes out of range and the
caller's `unwrap` fails (release) — both are panics, modelled by the
`panicked` outcome. -/

/-- The parser state: the cursor, the token vector, and the diagnostics. -/
structure PSt where
  current : Nat
  tokens : List Token
  errors : List String

/-- Result of a parsing function: a value plus the state, a panic, or fuel
exhaustion (a model artefact, never a program behaviour). -/
inductive PRes (α : Type) where
  | ok (a : α) (st : PSt)
  | panicked
  | fuelOut

/-- Rust `Parser::peek`. -/
def PSt.peek (st : PSt) : Option Token := st.tokens.get? st.current

/-- Rust `Parser::previous`: `none` doubles for the `current == 0` underflow
panic, which every caller that `unwrap`s turns into an abort. -/
def PSt.prevTok (st : PSt) : Option Token :=
  if st.current = 0 then none else st.tokens.get? (st.current - 1)

/-- Rust `Parser::advance`: step over the next token unless it is `Eof`, then
return `previous()`. -/
def PSt.advance (st : PSt) : Option Token × PSt :=
  let st1 :=
    match st.peek with
    | some .eof => st
    | some _ => { st with current := st.current + 1 }
    | none => st
  (st1.prevTok, st1)

/-- Push a parser diagnostic. -/
def PSt.pushErr (st : PSt) (e : String) : PSt := { st with errors := st.errors ++ [e] }

/-- The format `[line N] Error: <msg>`. -/
def lineErr (line : Nat) (msg : String) : String :=
  "[line " ++ toString line ++ "] Error: " ++ msg

/-- Message text `Expected ';' after value.` -/
def msgSemiAfterValue : String := "Expected " ++ sq ++ ";" ++ sq ++ " after value."

/-- Message text `Expected ';' after variable declaration.` -/
def msgSemiAfterVarDecl : String :=
  "Expected " ++ sq ++ ";" ++ sq ++ " after variable declaration."

/-- Rust `Parser::synchronize`: advance once, then walk forward until just after
a `;` or in front of a statement-starting keyword or `Eof`.  It inspects
`previous()` without unwrapping, so it cannot panic. -/
def synchronizeLoop : Nat → PSt → PRes Unit
  | 0, _ => .fuelOut
  | f + 1, st =>
    match st.peek with
    | none => .ok () st
    | some tok =>
      match st.prevTok with
      | some (.semicolon _) => .ok () st
      | _ =>
        match tok with
        | .eof | .kwClass _ | .kwFun _ | .kwVar _ | .kwFor _ | .kwIf _
        | .kwWhile _ | .kwPrint _ | .kwReturn _ => .ok () st
        | _ => synchronizeLoop f (st.advance).2

/-- Rust `Parser::synchronize` (the leading `advance` plus the loop). -/
def synchronizeF (f : Nat) (st : PSt) : PRes Unit :=
  synchronizeLoop f (st.advance).2

mutual

/-- Rust `Parser::declaration`. -/
def pDeclaration : Nat → PSt → PRes (Except String Statement)
  | 0, _ => .fuelOut
  | f + 1, st =>
    match st.peek with
    | some (.kwVar _) => pVarDecl f (st.advance).2
    | _ => pStatement f st

/-- Rust `Parser::var_declaration` (entered after `var` has been consumed). -/
def pVarDecl : Nat → PSt → PRes (Except String Statement)
  | 0, _ => .fuelOut
  | f + 1, st =>
    match st.advance with
    | (some (.identifier id), st1) =>
      (match st1.peek with
       | some (.equal _) =>
         match pExpression f (st1.advance).2 with
         | .ok init st2 =>
           (match st2.peek with
            | some (.semicolon _) =>
              .ok (.ok (.variableStmt id init)) (st2.advance).2
            | _ => .ok (.error (lineErr id.line msgSemiAfterVarDecl)) st2)
         | .panicked => .panicked
         | .fuelOut => .fuelOut
       | _ =>
         .ok (.error (lineErr id.line ("Expected " ++ sq ++ "=" ++ sq ++ " after variable name.")))
           st1)
    | (some other, st1) =>
      .ok (.error (lineErr other.line "Expected variable name.")) st1
    | (none, _) => .panicked

/-- Rust `Parser::statement`. -/
def pStatement : Nat → PSt → PRes (Except String Statement)
  | 0, _ => .fuelOut
  | f + 1, st =>
    match st.peek with
    | some (.kwIf _) => pIfStmt f (st.advance).2
    | some (.kwPrint _) => pPrintStmt f (st.advance).2
    | some (.kwWhile _) => pWhileStmt f (st.advance).2
    | some (.leftBrace _) => pBlock f (st.advance).2
    | _ => pExprStmt f st

/-- Rust `Parser::while_statement` (entered after `while`). -/
def pWhileStmt : Nat → PSt → PRes (Except String Statement)
  | 0, _ => .fuelOut
  | f + 1, st =>
    match st.peek with
    | some (.leftParen _) =>
      match pExpression f (st.advance).2 with
      | .ok cond st1 =>
        (match st1.peek with
         | some (.rightParen _) =>
           match pStatement f (st1.advance).2 with
           | .ok (.ok body) st2 => .ok (.ok (.whileStmt cond body)) st2
           | .ok (.error e) st2 => .ok (.error e) st2
           | .panicked => .panicked
           | .fuelOut => .fuelOut
         | _ =>
           match st1.prevTok with
           | some prev =>
             let m := lineErr prev.line
               ("Expected " ++ sq ++ ")" ++ sq ++ " after while condition.")
             .ok (.error m) (st1.pushErr m)
           | none => .panicked)
      | .panicked => .panicked
      | .fuelOut => .fuelOut
    | _ =>
      match st.prevTok with
      | some prev =>
        let m := lineErr prev.line ("Expected " ++ sq ++ "(" ++ sq ++ " after " ++ sq ++ "while" ++ sq ++ ".")
        .ok (.error m) (st.pushErr m)
      | none => .panicked

/-- Rust `Parser::block` (entered after `{`). -/
def pBlock : Nat → PSt → PRes (Except String Statement)
  | 0, _ => .fuelOut
  | f + 1, st => pBlockLoop f st []

/-- The statement loop of `Parser::block`. -/
def pBlockLoop : Nat → PSt → List Statement → PRes (Except String Statement)
  | 0, _, _ => .fuelOut
  | f + 1, st, acc =>
    match st.peek with
    | none => .ok (.ok (.block acc)) st
    | some (.rightBrace _) => .ok (.ok (.block acc)) (st.advance).2
    | some .eof =>
      match st.prevTok with
      | some prev =>
        .ok (.error (lineErr prev.line
          ("Expected " ++ sq ++ "\x7d" ++ sq ++ " after block, but found EOF"))) st
      | none => .panicked
    | some _ =>
      match pDeclaration f st with
      | .ok (.ok s) st1 => pBlockLoop f st1 (acc ++ [s])
      | .ok (.error e) st1 => .ok (.error e) st1
      | .panicked => .panicked
      | .fuelOut => .fuelOut

/-- Rust `Parser::print_statement` (entered after `print`). -/
def pPrintStmt : Nat → PSt → PRes (Except String Statement)
  | 0, _ => .fuelOut
  | f + 1, st =>
    match pExpression f st with
    | .ok value st1 =>
      (match st1.peek with
       | some (.semicolon _) => .ok (.ok (.print value)) (st1.advance).2
       | _ =>
         match st1.prevTok with
         | some prev =>
           let m := lineErr prev.line msgSemiAfterValue
           .ok (.error m) (st1.pushErr m)
         | none => .panicked)
    | .panicked => .panicked
    | .fuelOut => .fuelOut

/-- Rust `Parser::expression_statement`. -/
def pExprStmt : Nat → PSt → PRes (Except String Statement)
  | 0, _ => .fuelOut
  | f + 1, st =>
    match pExpression f st with
    | .ok value st1 =>
      (match st1.peek with
       | some (.semicolon _) => .ok (.ok (.expression value)) (st1.advance).2
       | _ =>
         match st1.prevTok with
         | some prev =>
           let m := lineErr prev.line msgSemiAfterValue
           .ok (.error m) (st1.pushErr m)
         | none => .panicked)
    | .panicked => .panicked
    | .fuelOut => .fuelOut

/-- Rust `Parser::if_statement` (entered after `if`). -/
def pIfStmt : Nat → PSt → PRes (Except String Statement)
  | 0, _ => .fuelOut
  | f + 1, st =>
    match st.peek with
    | some (.leftParen _) =>
      match pExpression f (st.advance).2 with
      | .ok cond st1 =>
        (match st1.peek with
         | some (.rightParen _) =>
           match pStatement f (st1.advance).2 with
           | .ok (.ok thenB) st2 =>
             (match st2.peek with
              | some (.kwElse _) =>
                match pStatement f (st2.advance).2 with
                | .ok (.ok elseB) st3 =>
                  .ok (.ok (.ifStmt cond thenB (some elseB))) st3
                | .ok (.error e) st3 => .ok (.error e) st3
                | .panicked => .panicked
                | .fuelOut => .fuelOut
              | _ => .ok (.ok (.ifStmt cond thenB none)) st2)
           | .ok (.error e) st2 => .ok (.error e) st2
           | .panicked => .panicked
           | .fuelOut => .fuelOut
         | _ =>
           match st1.prevTok with
           | some prev =>
             let m := lineErr prev.line
               ("Expected " ++ sq ++ ")" ++ sq ++ " after if condition.")
             .ok (.error m) (st1.pushErr m)
           | none => .panicked)
      | .panicked => .panicked
      | .fuelOut => .fuelOut
    | _ =>
      match st.prevTok with
      | some prev =>
        let m := lineErr prev.line ("Expected " ++ sq ++ "(" ++ sq ++ " after " ++ sq ++ "if" ++ sq ++ ".")
        .ok (.error m) (st.pushErr m)
      | none => .panicked

/-- Rust `Parser::expression`. -/
def pExpression : Nat → PSt → PRes Expr
  | 0, _ => .fuelOut
  | f + 1, st => pAssignment f st

/-- Rust `Parser::assignment`.  An invalid target records `Invalid assignment
target.` but still returns the left-hand expression. -/
def pAssignment : Nat → PSt → PRes Expr
  | 0, _ => .fuelOut
  | f + 1, st =>
    match pOr f st with
    | .ok expression st1 =>
      (match st1.peek with
       | some (.equal _) =>
         match pAssignment f (st1.advance).2 with
         | .ok value st2 =>
           (match expression with
            | .variableExpr v => .ok (.assignment v value) st2
            | _ =>
              match st2.prevTok with
              | some prev =>
                .ok expression (st2.pushErr (lineErr prev.line "Invalid assignment target."))
              | none => .panicked)
         | .panicked => .panicked
         | .fuelOut => .fuelOut
       | _ => .ok expression st1)
    | .panicked => .panicked
    | .fuelOut => .fuelOut

/-- Rust `Parser::or` (left-associative loop building `Logical` nodes). -/
def pOr : Nat → PSt → PRes Expr
  | 0, _ => .fuelOut
  | f + 1, st =>
    match pAnd f st with
    | .ok e st1 => pOrLoop f e st1
    | .panicked => .panicked
    | .fuelOut => .fuelOut

/-- The `while` loop of `Parser::or`. -/
def pOrLoop : Nat → Expr → PSt → PRes Expr
  | 0, _, _ => .fuelOut
  | f + 1, expr, st =>
    match st.peek with
    | some (.kwOr _) =>
      let st1 := (st.advance).2
      match st1.prevTok with
      | some op =>
        (match pAnd f st1 with
         | .ok right st2 => pOrLoop f (.logical expr op right) st2
         | .panicked => .panicked
         | .fuelOut => .fuelOut)
      | none => .panicked
    | _ => .ok expr st

/-- Rust `Parser::and`. -/
def pAnd : Nat → PSt → PRes Expr
  | 0, _ => .fuelOut
  | f + 1, st =>
    match pEquality f st with
    | .ok e st1 => pAndLoop f e st1
    | .panicked => .panicked
    | .fuelOut => .fuelOut

/-- The `while` loop of `Parser::and`. -/
def pAndLoop : Nat → Expr → PSt → PRes Expr
  | 0, _, _ => .fuelOut
  | f + 1, expr, st =>
    match st.peek with
    | some (.kwAnd _) =>
      let st1 := (st.advance).2
      match st1.prevTok with
      | some op =>
        (match pEquality f st1 with
         | .ok right st2 => pAndLoop f (.logical expr op right) st2
         | .panicked => .panicked
         | .fuelOut => .fuelOut)
      | none => .panicked
    | _ => .ok expr st

/-- Rust `Parser::equality`. -/
def pEquality : Nat → PSt → PRes Expr
  | 0, _ => .fuelOut
  | f + 1, st =>
    match pComparison f st with
    | .ok e st1 => pEqualityLoop f e st1
    | .panicked => .panicked
    | .fuelOut => .fuelOut

/-- The `while` loop of `Parser::equality`. -/
def pEqualityLoop : Nat → Expr → PSt → PRes Expr
  | 0, _, _ => .fuelOut
  | f + 1, expr, st =>
    match st.peek with
    | some (.bangEqual _) | some (.equalEqual _) =>
      let st1 := (st.advance).2
      match st1.prevTok with
      | some op =>
        (match pComparison f st1 with
         | .ok right st2 => pEqualityLoop f (.binary expr op right) st2
         | .panicked => .panicked
         | .fuelOut => .fuelOut)
      | none => .panicked
    | _ => .ok expr st

/-- Rust `Parser::comparison`. -/
def pComparison : Nat → PSt → PRes Expr
  | 0, _ => .fuelOut
  | f + 1, st =>
    match pTerm f st with
    | .ok e st1 => pComparisonLoop f e st1
    | .panicked => .panicked
    | .fuelOut => .fuelOut

/-- The `while` loop of `Parser::comparison`. -/
def pComparisonLoop : Nat → Expr → PSt → PRes Expr
  | 0, _, _ => .fuelOut
  | f + 1, expr, st =>
    match st.peek with
    | some (.greater _) | some (.greaterEqual _) | some (.less _) | some (.lessEqual _) =>
      let st1 := (st.advance).2
      match st1.prevTok with
      | some op =>
        (match pTerm f st1 with
         | .ok right st2 => pComparisonLoop f (.binary expr op right) st2
         | .panicked => .panicked
         | .fuelOut => .fuelOut)
      | none => .panicked
    | _ => .ok expr st

/-- Rust `Parser::term`. -/
def pTerm : Nat → PSt → PRes Expr
  | 0, _ => .fuelOut
  | f + 1, st =>
    match pFactor f st with
    | .ok e st1 => pTermLoop f e st1
    | .panicked => .panicked
    | .fuelOut => .fuelOut

/-- The `while` loop of `Parser::term`. -/
def pTermLoop : Nat → Expr → PSt → PRes Expr
  | 0, _, _ => .fuelOut
  | f + 1, expr, st =>
    match st.peek with
    | some (.minus _) | some (.plus _) =>
      let st1 := (st.advance).2
      match st1.prevTok with
      | some op =>
        (match pFactor f st1 with
         | .ok right st2 => pTermLoop f (.binary expr op right) st2
         | .panicked => .panicked
         | .fuelOut => .fuelOut)
      | none => .panicked
    | _ => .ok expr st

/-- Rust `Parser::factor`. -/
def pFactor : Nat → PSt → PRes Expr
  | 0, _ => .fuelOut
  | f + 1, st =>
    match pUnary f st with
    | .ok e st1 => pFactorLoop f e st1
    | .panicked => .panicked
    | .fuelOut => .fuelOut

/-- The `while` loop of `Parser::factor`. -/
def pFactorLoop : Nat → Expr → PSt → PRes Expr
  | 0, _, _ => .fuelOut
  | f + 1, expr, st =>
    match st.peek with
    | some (.slash _) | some (.star _) =>
      let st1 := (st.advance).2
      match st1.prevTok with
      | some op =>
        (match pUnary f st1 with
         | .ok right st2 => pFactorLoop f (.binary expr op right) st2
         | .panicked => .panicked
         | .fuelOut => .fuelOut)
      | none => .panicked
    | _ => .ok expr st

/-- Rust `Parser::unary`. -/
def pUnary : Nat → PSt → PRes Expr
  | 0, _ => .fuelOut
  | f + 1, st =>
    match st.peek with
    | some (.bang _) | some (.minus _) =>
      let st1 := (st.advance).2
      (match st1.prevTok with
       | some op =>
         match pUnary f st1 with
         | .ok right st2 => .ok (.unary op right) st2
         | .panicked => .panicked
         | .fuelOut => .fuelOut
       | none => .panicked)
    | _ => pPrimary f st

/-- Rust `Parser::primary`.  Note: there is no arm for `Token::String`; a string
literal (like any unexpected token) falls through to the final Nil literal
without being consumed. -/
def pPrimary : Nat → PSt → PRes Expr
  | 0, _ => .fuelOut
  | f + 1, st =>
    match st.peek with
    | some (.kwFalse _ value) | some (.kwTrue _ value) =>
      .ok (.literal (.boolean value)) (st.advance).2
    | some (.kwNil _) => .ok (.literal .nil) (st.advance).2
    | some (.number _ value) => .ok (.literal (.number value)) (st.advance).2
    | some (.identifier id) => .ok (.variableExpr id) (st.advance).2
    | some (.leftParen _) =>
      (match pExpression f (st.advance).2 with
       | .ok e st1 =>
         (match st1.peek with
          | some (.rightParen _) => .ok (.grouping e) (st1.advance).2
          | some other =>
            .ok (.grouping e)
              (st1.pushErr ("[line " ++ toString other.line ++ "] Error at " ++ sq ++ "(" ++
                sq ++ ": Expect " ++ sq ++ ")" ++ sq ++ " after expression."))
          | none =>
            match st1.prevTok with
            | some prev =>
              .ok (.grouping e)
                (st1.pushErr (lineErr prev.line
                  ("Expected " ++ sq ++ ")" ++ sq ++ " after expression.")))
            | none => .panicked)
       | .panicked => .panicked
       | .fuelOut => .fuelOut)
    | _ => .ok (.literal .nil) st

end

/-- Outcome of `Parser::parse`. -/
inductive POut where
  | ok (statements : List Statement) (errors : List String)
  | panicked
  | fuelOut

/-- The `while let Some(token) = self.peek()` loop of `Parser::parse`:
stop at `Eof`; a failed declaration pushes its message (again — some paths
already pushed it once inside the failing function) and synchronizes. -/
def parseLoop : Nat → PSt → List Statement → POut
  | 0, _, _ => .fuelOut
  | f + 1, st, acc =>
    match st.peek with
    | none => .ok acc st.errors
    | some .eof => .ok acc st.errors
    | some _ =>
      match pDeclaration f st with
      | .ok (.ok s) st1 => parseLoop f st1 (acc ++ [s])
      | .ok (.error e) st1 =>
        (match synchronizeF f (st1.pushErr e) with
         | .ok () st2 => parseLoop f st2 acc
         | .panicked => .panicked
         | .fuelOut => .fuelOut)
      | .panicked => .panicked
      | .fuelOut => .fuelOut

/-- Running the parser on a token list with a fresh diagnostics list
(`Parser::new` + `parse`). -/
def parseF (fuel : Nat) (tokens : List Token) : POut :=
  parseLoop fuel ⟨0, tokens, []⟩ []

/-! ## The pipeline

`main.rs` is outside the spec's scope, but the claims speak of running a
source text "through scan, parse, and evaluate": scan, halt on scan
diagnostics; parse, halt on parse diagnostics; then execute the statements
in order against a fresh global environment, stopping at the first runtime
error. -/

/-- Observable outcome of the scan → parse → evaluate pipeline. -/
inductive RunOut where
  | scanPanicked
  | scanErrs (errors : List String)
  | parsePanicked
  | parseErrs (statements : List Statement) (errors : List String)
  | runtimeErr (e : RuntimeError) (out : List String)
  | done (out : List String)
  | fuelOut

/-- Scan, parse and evaluate a source string. -/
def runModel (fuel : Nat) (source : String) : RunOut :=
  match scanF fuel source.data with
  | .panicked => .scanPanicked
  | .fuelOut => .fuelOut
  | .ok tokens errs =>
    if errs.isEmpty then
      match parseF fuel tokens with
      | .panicked => .parsePanicked
      | .fuelOut => .fuelOut
      | .ok statements perrs =>
        if perrs.isEmpty then
          match execStmts fuel Environment.newGlobal statements with
          | .ok _ out => .done out
          | .err e _ out => .runtimeErr e out
          | .fuelOut => .fuelOut
        else .parseErrs statements perrs
    else .scanErrs errs

/-! ## Specification-side definitions

These restate parts of the spec in the spec's own words, independently of
the translated code, so that the claim theorems compare the two. -/

/-- Modelled from the spec: two values are equal iff they share the same
variant and their carried data is equal (Number equality is IEEE-754 `==`);
values of different variants are never equal. -/
def specEq : Value → Value → Bool
  | .number a, .number b => F64.beq a b
  | .string a, .string b => a == b
  | .boolean a, .boolean b => a == b
  | .nil, .nil => true
  | _, _ => false

/-- The names bound at each link of an environment chain, innermost first
(the "set of bindings" the frame claims speak about). -/
def envNames : Environment → List (List String)
  | .global vs => [vs.map Prod.fst]
  | .nested vs encl => vs.map Prod.fst :: envNames encl

/-- The names bound in the innermost scope. -/
def topNames (env : Environment) : List String := env.values.map Prod.fst

/-- The names bound in the chain strictly outside the innermost scope. -/
def restNames : Environment → List (List String)
  | .global _ => []
  | .nested _ e => envNames e

theorem envNames_eq_cons (env : Environment) :
    envNames env = topNames env :: restNames env := by
  cases env <;> rfl

/-! ## Lemmas about scopes and the environment chain -/

theorem scopeGet_nil (n : String) : scopeGet [] n = none := rfl

theorem scopeGet_cons (k : String) (w : Value) (rest : Scope) (n : String) :
    scopeGet ((k, w) :: rest) n = if (k == n) = true then some w else scopeGet rest n := by
  cases h : (k == n) <;> simp [scopeGet, List.find?_cons, h]

theorem scopeInsert_cons (k : String) (w : Value) (rest : Scope) (n : String) (v : Value) :
    scopeInsert ((k, w) :: rest) n v =
      if (k == n) = true then (k, v) :: rest else (k, w) :: scopeInsert rest n v := by
  cases h : (k == n) <;> simp [scopeInsert, h]

theorem scopeGet_insert_self (s : Scope) (n : String) (v : Value) :
    scopeGet (scopeInsert s n v) n = some v := by
  induction s with
  | nil => simp [scopeInsert, scopeGet_cons, scopeGet_nil]
  | cons p rest ih =>
    obtain ⟨k, w⟩ := p
    rw [scopeInsert_cons]
    cases h : (k == n)
    · simpa [h, scopeGet_cons] using ih
    · simp [h, scopeGet_cons]

theorem scopeGet_insert_other (s : Scope) (n m : String) (v : Value) (h : m ≠ n) :
    scopeGet (scopeInsert s n v) m = scopeGet s m := by
  induction s with
  | nil =>
    simp [scopeInsert, scopeGet_cons, scopeGet_nil, beq_false_of_ne (Ne.symm h)]
  | cons p rest ih =>
    obtain ⟨k, w⟩ := p
    rw [scopeInsert_cons]
    cases hk : (k == n)
    · simp [scopeGet_cons, ih]
    · have hkn : k = n := by simpa using hk
      subst hkn
      simp [scopeGet_cons, beq_false_of_ne (Ne.symm h)]

theorem scopeInsert_fst_present (s : Scope) (n : String) (v w : Value)
    (h : scopeGet s n = some w) :
    (scopeInsert s n v).map Prod.fst = s.map Prod.fst := by
  induction s with
  | nil => simp [scopeGet_nil] at h
  | cons p rest ih =>
    obtain ⟨k, u⟩ := p
    rw [scopeInsert_cons]
    rw [scopeGet_cons] at h
    cases hk : (k == n)
    · simp only [hk] at h
      simp [hk, ih h]
    · simp [hk]

theorem scopeInsert_fst_absent (s : Scope) (n : String) (v : Value)
    (h : scopeGet s n = none) :
    (scopeInsert s n v).map Prod.fst = s.map Prod.fst ++ [n] := by
  induction s with
  | nil => simp [scopeInsert]
  | cons p rest ih =>
    obtain ⟨k, u⟩ := p
    rw [scopeInsert_cons]
    rw [scopeGet_cons] at h
    cases hk : (k == n)
    · simp only [hk] at h
      simp [hk, ih h]
    · simp only [hk] at h
      simp at h

theorem nearestLookup_global (vs : Scope) (n : String) :
    nearestLookup (.global vs) n = scopeGet vs n := by
  cases h : scopeGet vs n <;>
    simp [nearestLookup, Environment.scopes, List.findSome?_cons, List.findSome?_nil, h]

theorem nearestLookup_nested (vs : Scope) (encl : Environment) (n : String) :
    nearestLookup (.nested vs encl) n =
      (match scopeGet vs n with
       | some v => some v
       | none => nearestLookup encl n) := by
  cases h : scopeGet vs n <;>
    simp [nearestLookup, Environment.scopes, List.findSome?_cons, h]

/-- Lemma: `Environment.get` returns exactly the nearest binding walking the chain
from the innermost scope outward, and `UndefinedVariable` when no link binds
the name. -/
theorem Environment.get_eq_nearest :
    ∀ (env : Environment) (n : String),
      env.get n =
        match nearestLookup env n with
        | some v => .ok v
        | none => .error (.undefinedVariable (n ++ " variable is not defined"))
  | .global vs, n => by
    rw [nearestLookup_global]
    cases h : scopeGet vs n <;> simp [Environment.get, h]
  | .nested vs encl, n => by
    rw [nearestLookup_nested]
    cases h : scopeGet vs n with
    | some v => simp [Environment.get, h]
    | none =>
      simp only [Environment.get, h]
      exact Environment.get_eq_nearest encl n

/-- Lemma: `Environment.assign` on a name bound somewhere in the chain: it succeeds,
the nearest binding now holds the assigned value, every other name reads as
before, and the bound-name lists of all links are unchanged. -/
theorem Environment.assign_spec_bound :
    ∀ (env : Environment) (n : String) (v : Value),
      (nearestLookup env n).isSome →
      ∃ env', env.assign n v = .ok env' ∧
        nearestLookup env' n = some v ∧
        (∀ m, m ≠ n → nearestLookup env' m = nearestLookup env m) ∧
        envNames env' = envNames env
  | .global vs, n, v, h => by
    rw [nearestLookup_global] at h
    obtain ⟨w, hw⟩ := Option.isSome_iff_exists.mp h
    refine ⟨.global (scopeInsert vs n v), ?_, ?_, ?_, ?_⟩
    · simp [Environment.assign, hw]
    · rw [nearestLookup_global, scopeGet_insert_self]
    · intro m hm
      rw [nearestLookup_global, nearestLookup_global, scopeGet_insert_other vs n m v hm]
    · simp [envNames, scopeInsert_fst_present vs n v w hw]
  | .nested vs encl, n, v, h => by
    rw [nearestLookup_nested] at h
    cases hv : scopeGet vs n with
    | some w =>
      refine ⟨.nested (scopeInsert vs n v) encl, ?_, ?_, ?_, ?_⟩
      · simp [Environment.assign, hv]
      · rw [nearestLookup_nested, scopeGet_insert_self]
      · intro m hm
        rw [nearestLookup_nested, nearestLookup_nested,
          scopeGet_insert_other vs n m v hm]
      · simp [envNames, scopeInsert_fst_present vs n v w hv]
    | none =>
      rw [hv] at h
      obtain ⟨e', ha, hn, hother, hnames⟩ :=
        Environment.assign_spec_bound encl n v (by simpa using h)
      refine ⟨.nested vs e', ?_, ?_, ?_, ?_⟩
      · simp [Environment.assign, hv, ha]
      · rw [nearestLookup_nested, hv]
        simpa using hn
      · intro m hm
        rw [nearestLookup_nested, nearestLookup_nested]
        cases hmm : scopeGet vs m
        · simpa using hother m hm
        · simp
      · simp [envNames, hnames]

/-- Lemma: `Environment.assign` on a name bound nowhere in the chain fails with
`UndefinedVariable`. -/
theorem Environment.assign_spec_unbound :
    ∀ (env : Environment) (n : String) (v : Value),
      nearestLookup env n = none →
      env.assign n v = .error (.undefinedVariable (n ++ " variable is not defined"))
  | .global vs, n, v, h => by
    rw [nearestLookup_global] at h
    simp [Environment.assign, h]
  | .nested vs encl, n, v, h => by
    rw [nearestLookup_nested] at h
    cases hv : scopeGet vs n with
    | some w => rw [hv] at h; simp at h
    | none =>
      rw [hv] at h
      have := Environment.assign_spec_unbound encl n v h
      simp [Environment.assign, hv, this]

/-- Assignment that succeeds never changes the bound-name lists. -/
theorem Environment.assign_names :
    ∀ (env env' : Environment) (n : String) (v : Value),
      env.assign n v = .ok env' → envNames env' = envNames env
  | .global vs, env', n, v, h => by
    simp only [Environment.assign] at h
    cases hv : scopeGet vs n with
    | some w =>
      rw [hv] at h
      simp at h
      cases h
      simp [envNames, scopeInsert_fst_present vs n v w hv]
    | none => rw [hv] at h; simp at h
  | .nested vs encl, env', n, v, h => by
    simp only [Environment.assign] at h
    cases hv : scopeGet vs n with
    | some w =>
      rw [hv] at h
      simp at h
      cases h
      simp [envNames, scopeInsert_fst_present vs n v w hv]
    | none =>
      rw [hv] at h
      simp only [Option.isSome_none, Bool.false_eq_true, if_false] at h
      cases ha : encl.assign n v with
      | ok e2 =>
        rw [ha] at h
        simp at h
        cases h
        have := Environment.assign_names encl e2 n v ha
        simp [envNames, this]
      | error err => rw [ha] at h; simp at h

/-! ## Frame lemmas for the evaluator -/

/-- Evaluating an expression never changes the bound-name lists of any link
of the chain (assignment only overwrites values of existing bindings). -/
theorem evalExpr_names (e : Expr) : ∀ (env : Environment),
    envNames (evalExpr env e).envOf = envNames env := by
  induction e with
  | binary l op r ihl ihr =>
    intro env
    simp only [evalExpr]
    split
    next lv env1 hl =>
      have h1 : envNames env1 = envNames env := by
        have := ihl env; rw [hl] at this; simpa [ExprOut.envOf] using this
      split
      next rv env2 hr =>
        have h2 : envNames env2 = envNames env1 := by
          have := ihr env1; rw [hr] at this; simpa [ExprOut.envOf] using this
        split <;> simp [ExprOut.envOf, h1, h2]
      next er env2 hr =>
        have h2 : envNames env2 = envNames env1 := by
          have := ihr env1; rw [hr] at this; simpa [ExprOut.envOf] using this
        simp [ExprOut.envOf, h1, h2]
    next er env1 hl =>
      have := ihl env; rw [hl] at this; simpa [ExprOut.envOf] using this
  | grouping inner ih =>
    intro env
    simpa [evalExpr] using ih env
  | literal lv =>
    intro env
    cases lv <;> simp [evalExpr, ExprOut.envOf]
  | unary op r ih =>
    intro env
    simp only [evalExpr]
    split
    next v env1 hr =>
      have h1 : envNames env1 = envNames env := by
        have := ih env; rw [hr] at this; simpa [ExprOut.envOf] using this
      split <;>
        first
          | (split <;> simp [ExprOut.envOf, h1])
          | simp [ExprOut.envOf, h1]
    next er env1 hr =>
      have := ih env; rw [hr] at this; simpa [ExprOut.envOf] using this
  | variableExpr id =>
    intro env
    simp only [evalExpr]
    split <;> simp [ExprOut.envOf]
  | assignment name rhs ih =>
    intro env
    simp only [evalExpr]
    split
    next v env1 hr =>
      have h1 : envNames env1 = envNames env := by
        have := ih env; rw [hr] at this; simpa [ExprOut.envOf] using this
      split
      next env2 ha =>
        have := Environment.assign_names env1 env2 name.value v ha
        simp [ExprOut.envOf, this, h1]
      next er ha => simp [ExprOut.envOf, h1]
    next er env1 hr =>
      have := ih env; rw [hr] at this; simpa [ExprOut.envOf] using this
  | logical l op r ihl ihr =>
    intro env
    simp only [evalExpr]
    split
    next v env1 hl =>
      have h1 : envNames env1 = envNames env := by
        have := ihl env; rw [hl] at this; simpa [ExprOut.envOf] using this
      have hrr : envNames (evalExpr env1 r).envOf = envNames env := by
        rw [ihr env1, h1]
      split <;> split <;> first
        | exact hrr
        | simp [ExprOut.envOf, h1]
    next er env1 hl =>
      have := ihl env; rw [hl] at this; simpa [ExprOut.envOf] using this

/-- The frame property a statement outcome guarantees relative to the
starting environment: the bound-name lists of all outer links are unchanged,
and the innermost scope's name list has at most grown at the end. -/
def framePreserved (r : StmtOut) (env : Environment) : Prop :=
  match r with
  | .ok env' _ => restNames env' = restNames env ∧
      ∃ ex, topNames env' = topNames env ++ ex
  | .err _ env' _ => restNames env' = restNames env ∧
      ∃ ex, topNames env' = topNames env ++ ex
  | .fuelOut => True

theorem framePreserved_refl (env : Environment) (out : List String) :
    framePreserved (.ok env out) env := ⟨rfl, [], by simp⟩

theorem framePreserved_of_envNames_eq {env env' : Environment}
    (h : envNames env' = envNames env) :
    restNames env' = restNames env ∧ ∃ ex, topNames env' = topNames env ++ ex := by
  rw [envNames_eq_cons, envNames_eq_cons] at h
  exact ⟨(List.cons.injEq _ _ _ _ ▸ h).2, [], by simp [(List.cons.injEq _ _ _ _ ▸ h).1]⟩

/-- Lemma: `define` only grows the innermost scope's name list. -/
theorem define_frame (env : Environment) (n : String) (v : Value) :
    restNames (env.define n v) = restNames env ∧
      ∃ ex, topNames (env.define n v) = topNames env ++ ex := by
  cases env with
  | global vs =>
    refine ⟨rfl, ?_⟩
    cases hv : scopeGet vs n with
    | some w =>
      exact ⟨[], by simp [Environment.define, topNames, Environment.values,
        scopeInsert_fst_present vs n v w hv]⟩
    | none =>
      exact ⟨[n], by simp [Environment.define, topNames, Environment.values,
        scopeInsert_fst_absent vs n v hv]⟩
  | nested vs encl =>
    refine ⟨rfl, ?_⟩
    cases hv : scopeGet vs n with
    | some w =>
      exact ⟨[], by simp [Environment.define, topNames, Environment.values,
        scopeInsert_fst_present vs n v w hv]⟩
    | none =>
      exact ⟨[n], by simp [Environment.define, topNames, Environment.values,
        scopeInsert_fst_absent vs n v hv]⟩

/-- Splitting `evalExpr_names` into the two components of `envNames`. -/
theorem evalExpr_preserves (e : Expr) (env : Environment) :
    topNames (evalExpr env e).envOf = topNames env ∧
      restNames (evalExpr env e).envOf = restNames env := by
  have := evalExpr_names e env
  rw [envNames_eq_cons, envNames_eq_cons] at this
  simpa [List.cons.injEq] using this

theorem framePreserved_trans {r : StmtOut} {env env1 : Environment}
    (h1 : restNames env1 = restNames env)
    (h2 : ∃ ex, topNames env1 = topNames env ++ ex)
    (hr : framePreserved r env1) : framePreserved r env := by
  obtain ⟨ex1, ht1⟩ := h2
  cases r with
  | ok env2 out =>
    obtain ⟨hre, ex2, hte⟩ := hr
    exact ⟨hre.trans h1, ex1 ++ ex2, by rw [hte, ht1, List.append_assoc]⟩
  | err er env2 out =>
    obtain ⟨hre, ex2, hte⟩ := hr
    exact ⟨hre.trans h1, ex1 ++ ex2, by rw [hte, ht1, List.append_assoc]⟩
  | fuelOut => trivial

/-- When the body of a block finishes, the restored environment is the
enclosing chain of the inner one; if that chain carried the starting
environment's names, so does the restoration. -/
theorem popScope_names {env1 env : Environment}
    (h : restNames env1 = envNames env) : envNames (popScope env1) = envNames env := by
  cases env1 with
  | global vs =>
    rw [envNames_eq_cons] at h
    simp [restNames] at h
  | nested vs e1 => simpa [restNames, popScope] using h

mutual

/-- Executing any statement leaves the bound-name lists of all enclosing
links unchanged and at most extends the innermost scope's list. -/
theorem execStmt_frame : ∀ (f : Nat) (env : Environment) (s : Statement),
    framePreserved (execStmt f env s) env
  | 0, env, s => by simp [execStmt, framePreserved]
  | f + 1, env, s => by
    cases s with
    | expression e =>
      simp only [execStmt]
      split
      next v env1 heq =>
        have := evalExpr_preserves e env
        rw [heq] at this
        simp only [ExprOut.envOf] at this
        exact ⟨this.2, [], by simp [this.1]⟩
      next er env1 heq =>
        have := evalExpr_preserves e env
        rw [heq] at this
        simp only [ExprOut.envOf] at this
        exact ⟨this.2, [], by simp [this.1]⟩
    | print e =>
      simp only [execStmt]
      split
      next v env1 heq =>
        have := evalExpr_preserves e env
        rw [heq] at this
        simp only [ExprOut.envOf] at this
        exact ⟨this.2, [], by simp [this.1]⟩
      next er env1 heq =>
        have := evalExpr_preserves e env
        rw [heq] at this
        simp only [ExprOut.envOf] at this
        exact ⟨this.2, [], by simp [this.1]⟩
    | variableStmt name e =>
      simp only [execStmt]
      split
      next v env1 heq =>
        have h1 := evalExpr_preserves e env
        rw [heq] at h1
        simp only [ExprOut.envOf] at h1
        have h2 := define_frame env1 name.value v
        obtain ⟨ex, hex⟩ := h2.2
        exact ⟨h2.1.trans h1.2, ex, by rw [hex, h1.1]⟩
      next er env1 heq =>
        have := evalExpr_preserves e env
        rw [heq] at this
        simp only [ExprOut.envOf] at this
        exact ⟨this.2, [], by simp [this.1]⟩
    | block ss =>
      simp only [execStmt]
      have hin := execStmts_frame f (.nested [] env) ss
      cases hb : execStmts f (.nested [] env) ss with
      | ok env1 out =>
        rw [hb] at hin
        obtain ⟨hre, _, _⟩ := hin
        have : restNames env1 = envNames env := by
          simpa [restNames] using hre
        have hp := popScope_names this
        simp only [finishBlock]
        exact framePreserved_of_envNames_eq hp
      | err er env1 out =>
        rw [hb] at hin
        obtain ⟨hre, _, _⟩ := hin
        have : restNames env1 = envNames env := by
          simpa [restNames] using hre
        have hp := popScope_names this
        simp only [finishBlock]
        exact framePreserved_of_envNames_eq hp
      | fuelOut => simp only [finishBlock]; trivial
    | ifStmt c t els =>
      simp only [execStmt]
      split
      next v env1 heq =>
        have h1 := evalExpr_preserves c env
        rw [heq] at h1
        simp only [ExprOut.envOf] at h1
        by_cases ht : truthy v = true
        · simp only [ht, if_true]
          exact framePreserved_trans h1.2 ⟨[], by simp [h1.1]⟩
            (execStmt_frame f env1 t)
        · simp only [ht, if_false]
          cases els with
          | some e2 =>
            exact framePreserved_trans h1.2 ⟨[], by simp [h1.1]⟩
              (execStmt_frame f env1 e2)
          | none => exact ⟨h1.2, [], by simp [h1.1]⟩
      next er env1 heq =>
        have := evalExpr_preserves c env
        rw [heq] at this
        simp only [ExprOut.envOf] at this
        exact ⟨this.2, [], by simp [this.1]⟩
    | whileStmt c b =>
      simp only [execStmt]
      split
      next v env1 heq =>
        have h1 := evalExpr_preserves c env
        rw [heq] at h1
        simp only [ExprOut.envOf] at h1
        by_cases ht : truthy v = true
        · simp only [ht, if_true]
          split
          next env2 out1 hb =>
            have hbody := execStmt_frame f env1 b
            rw [hb] at hbody
            obtain ⟨hre2, ex2, hte2⟩ := hbody
            split
            next env3 out2 hw =>
              have hloop := execStmt_frame f env2 (.whileStmt c b)
              rw [hw] at hloop
              obtain ⟨hre3, ex3, hte3⟩ := hloop
              exact ⟨hre3.trans (hre2.trans h1.2), ex2 ++ ex3,
                by rw [hte3, hte2, h1.1, List.append_assoc]⟩
            next er env3 out2 hw =>
              have hloop := execStmt_frame f env2 (.whileStmt c b)
              rw [hw] at hloop
              obtain ⟨hre3, ex3, hte3⟩ := hloop
              exact ⟨hre3.trans (hre2.trans h1.2), ex2 ++ ex3,
                by rw [hte3, hte2, h1.1, List.append_assoc]⟩
            next hw => trivial
          next er env2 out1 hb =>
            have hbody := execStmt_frame f env1 b
            rw [hb] at hbody
            obtain ⟨hre2, ex2, hte2⟩ := hbody
            exact ⟨hre2.trans h1.2, ex2, by rw [hte2, h1.1]⟩
          next hb => trivial
        · simp only [ht, if_false]
          exact ⟨h1.2, [], by simp [h1.1]⟩
      next er env1 heq =>
        have := evalExpr_preserves c env
        rw [heq] at this
        simp only [ExprOut.envOf] at this
        exact ⟨this.2, [], by simp [this.1]⟩

/-- Executing a statement list preserves the same frame property. -/
theorem execStmts_frame : ∀ (f : Nat) (env : Environment) (ss : List Statement),
    framePreserved (execStmts f env ss) env
  | 0, env, ss => by simp [execStmts, framePreserved]
  | f + 1, env, [] => by
    simp only [execStmts]
    exact ⟨rfl, [], by simp⟩
  | f + 1, env, s :: rest => by
    simp only [execStmts]
    split
    next env1 out1 hs =>
      have hhead := execStmt_frame f env s
      rw [hs] at hhead
      obtain ⟨hre1, ex1, hte1⟩ := hhead
      split
      next env2 out2 hr =>
        have htail := execStmts_frame f env1 rest
        rw [hr] at htail
        obtain ⟨hre2, ex2, hte2⟩ := htail
        exact ⟨hre2.trans hre1, ex1 ++ ex2, by rw [hte2, hte1, List.append_assoc]⟩
      next er env2 out2 hr =>
        have htail := execStmts_frame f env1 rest
        rw [hr] at htail
        obtain ⟨hre2, ex2, hte2⟩ := htail
        exact ⟨hre2.trans hre1, ex1 ++ ex2, by rw [hte2, hte1, List.append_assoc]⟩
      next hr => trivial
    next er env1 out1 hs =>
      have hhead := execStmt_frame f env s
      rw [hs] at hhead
      obtain ⟨hre1, ex1, hte1⟩ := hhead
      exact ⟨hre1, ex1, hte1⟩
    next hs => trivial

end

/-! ## Claim theorems -/

/-- C4: executing a block statement runs its body in a fresh innermost
environment whose enclosing link is the current environment; on both exit
paths (normal completion and runtime error) the previous environment is
restored as current, and the list of bound names at every link of the
enclosing chain is exactly what it was before the block (assignments inside
the block can only overwrite values of pre-existing bindings, never add or
remove names). -/
theorem c4_block_scoping (fuel : Nat) (env : Environment) (ss : List Statement) :
    (∀ f, fuel = f + 1 →
      execStmt fuel env (.block ss) =
        finishBlock (execStmts f (.nested [] env) ss))
    ∧ (∀ env' out, execStmt fuel env (.block ss) = .ok env' out →
        envNames env' = envNames env)
    ∧ (∀ er env' out, execStmt fuel env (.block ss) = .err er env' out →
        envNames env' = envNames env) := by
  refine ⟨?_, ?_, ?_⟩
  · rintro f rfl
    rfl
  · intro env' out h
    cases fuel with
    | zero => simp [execStmt] at h
    | succ f =>
      simp only [execStmt] at h
      have hin := execStmts_frame f (.nested [] env) ss
      cases hb : execStmts f (.nested [] env) ss with
      | ok env1 out1 =>
        rw [hb] at hin h
        simp only [finishBlock, StmtOut.ok.injEq] at h
        obtain ⟨h1, h2⟩ := h
        subst h1
        obtain ⟨hre, -⟩ := hin
        exact popScope_names (by simpa [restNames] using hre)
      | err er env1 out1 => rw [hb] at h; simp [finishBlock] at h
      | fuelOut => rw [hb] at h; simp [finishBlock] at h
  · intro er env' out h
    cases fuel with
    | zero => simp [execStmt] at h
    | succ f =>
      simp only [execStmt] at h
      have hin := execStmts_frame f (.nested [] env) ss
      cases hb : execStmts f (.nested [] env) ss with
      | ok env1 out1 => rw [hb] at h; simp [finishBlock] at h
      | err er1 env1 out1 =>
        rw [hb] at hin h
        simp only [finishBlock, StmtOut.err.injEq] at h
        obtain ⟨-, h1, -⟩ := h
        subst h1
        obtain ⟨hre, -⟩ := hin
        exact popScope_names (by simpa [restNames] using hre)
      | fuelOut => rw [hb] at h; simp [finishBlock] at h

/-- Witness for C4 on a concrete block that declares a variable inside: the
inner binding disappears when the block's scope is popped and the outer
chain's names are unchanged. -/
theorem c4_block_scoping_witness :
    execStmt 3 (.global [("a", Value.nil)])
        (.block [.variableStmt ⟨"b", 1⟩ (.literal .nil)]) =
      .ok (.global [("a", Value.nil)]) []
    ∧ envNames (Environment.global [("a", Value.nil)]) =
        envNames (.global [("a", Value.nil)]) := by
  refine ⟨rfl, ?_⟩
  exact (c4_block_scoping 3 (.global [("a", Value.nil)])
    [.variableStmt ⟨"b", 1⟩ (.literal .nil)]).2.1
    (.global [("a", Value.nil)]) [] rfl

/-- C5: variable reads return the nearest binding walking the chain from the
innermost scope outward; assignment overwrites exactly that nearest binding
(leaving every other name and all bound-name lists unchanged) and the
assignment expression evaluates to the assigned value; when the name is
bound nowhere in the chain, both reading and assigning fail with
`UndefinedVariable`. -/
theorem c5_variable_resolution (env : Environment) (n : String) :
    (∀ v, nearestLookup env n = some v → env.get n = .ok v)
    ∧ (nearestLookup env n = none →
        env.get n = .error (.undefinedVariable (n ++ " variable is not defined")))
    ∧ (∀ v, (nearestLookup env n).isSome →
        ∃ env', env.assign n v = .ok env' ∧
          nearestLookup env' n = some v ∧
          (∀ m, m ≠ n → nearestLookup env' m = nearestLookup env m) ∧
          envNames env' = envNames env)
    ∧ (∀ v, nearestLookup env n = none →
        env.assign n v = .error (.undefinedVariable (n ++ " variable is not defined")))
    ∧ (∀ (line : Nat) (rhs : Expr) (v : Value) (env1 : Environment),
        evalExpr env rhs = .ok v env1 →
        (nearestLookup env1 n).isSome →
        ∃ env2, evalExpr env (.assignment ⟨n, line⟩ rhs) = .ok v env2) := by
  refine ⟨?_, ?_, ?_, ?_, ?_⟩
  · intro v hv
    rw [Environment.get_eq_nearest, hv]
  · intro hv
    rw [Environment.get_eq_nearest, hv]
  · intro v hv
    exact Environment.assign_spec_bound env n v hv
  · intro v hv
    exact Environment.assign_spec_unbound env n v hv
  · intro line rhs v env1 hrhs hv
    obtain ⟨env2, ha, -⟩ := Environment.assign_spec_bound env1 n v hv
    refine ⟨env2, ?_⟩
    simp [evalExpr, hrhs, ha]

/-- Witness for C5 on a two-link chain: the inner `x` shadows, `y` resolves
outward, `z` is unbound for both reading and assignment. -/
theorem c5_variable_resolution_witness :
    (Environment.nested [("x", Value.nil)]
        (.global [("x", Value.boolean true), ("y", Value.boolean false)])).get "x" =
      .ok Value.nil
    ∧ (Environment.nested [("x", Value.nil)]
        (.global [("x", Value.boolean true), ("y", Value.boolean false)])).get "y" =
      .ok (Value.boolean false)
    ∧ (Environment.nested [("x", Value.nil)]
        (.global [("x", Value.boolean true), ("y", Value.boolean false)])).get "z" =
      .error (.undefinedVariable ("z" ++ " variable is not defined"))
    ∧ (∃ env', (Environment.nested [("x", Value.nil)]
        (.global [("x", Value.boolean true), ("y", Value.boolean false)])).assign
          "y" Value.nil = .ok env' ∧
        nearestLookup env' "y" = some Value.nil ∧
        (∀ m, m ≠ "y" → nearestLookup env' m =
          nearestLookup (Environment.nested [("x", Value.nil)]
            (.global [("x", Value.boolean true), ("y", Value.boolean false)])) m) ∧
        envNames env' = envNames (Environment.nested [("x", Value.nil)]
          (.global [("x", Value.boolean true), ("y", Value.boolean false)])))
    ∧ (Environment.nested [("x", Value.nil)]
        (.global [("x", Value.boolean true), ("y", Value.boolean false)])).assign
          "z" Value.nil =
      .error (.undefinedVariable ("z" ++ " variable is not defined"))
    ∧ (∃ env2, evalExpr (Environment.global [("x", Value.nil)])
        (.assignment ⟨"x", 1⟩ (.literal (.boolean true))) =
        .ok (Value.boolean true) env2) := by
  refine ⟨?_, ?_, ?_, ?_, ?_, ?_⟩
  · exact (c5_variable_resolution _ "x").1 Value.nil (by decide)
  · exact (c5_variable_resolution _ "y").1 (Value.boolean false) (by decide)
  · exact (c5_variable_resolution _ "z").2.1 (by decide)
  · exact (c5_variable_resolution _ "y").2.2.1 Value.nil (by decide)
  · exact (c5_variable_resolution _ "z").2.2.2.1 Value.nil (by decide)
  · exact (c5_variable_resolution _ "x").2.2.2.2 1 (.literal (.boolean true))
      (Value.boolean true) (.global [("x", Value.nil)]) rfl (by decide)

/-- C6: `or` with a truthy left operand returns the left value without
evaluating the right operand (the result and environment are those after the
left operand alone, for every right operand); `and` with a non-truthy left
operand likewise returns the left value; otherwise the result is exactly the
evaluation of the right operand.  The returned value is the operand itself,
never coerced to Boolean, and only `Nil` and `Boolean(false)` are
non-truthy. -/
theorem c6_logical_short_circuit :
    (∀ (env env1 : Environment) (l r : Expr) (line : Nat) (v : Value),
      evalExpr env l = .ok v env1 →
        (truthy v = true →
          evalExpr env (.logical l (.kwOr line) r) = .ok v env1)
        ∧ (truthy v = false →
          evalExpr env (.logical l (.kwOr line) r) = evalExpr env1 r)
        ∧ (truthy v = false →
          evalExpr env (.logical l (.kwAnd line) r) = .ok v env1)
        ∧ (truthy v = true →
          evalExpr env (.logical l (.kwAnd line) r) = evalExpr env1 r))
    ∧ (∀ v : Value, truthy v = false ↔ (v = .nil ∨ v = .boolean false)) := by
  constructor
  · intro env env1 l r line v hl
    refine ⟨?_, ?_, ?_, ?_⟩ <;> intro ht <;> simp [evalExpr, hl, ht]
  · intro v
    cases v with
    | boolean b => cases b <;> simp [truthy]
    | nil => simp [truthy]
    | number q => simp [truthy]
    | string s => simp [truthy]

/-- Witness for C6: `true or X` returns `Boolean true` untouched by `X`, and
`false and X` returns `Boolean false`; `"" or X` (truthy empty string)
returns the string itself. -/
theorem c6_logical_short_circuit_witness :
    evalExpr (.global []) (.logical (.literal (.boolean true)) (.kwOr 1)
        (.assignment ⟨"x", 1⟩ (.literal .nil))) =
      .ok (Value.boolean true) (.global [])
    ∧ evalExpr (.global []) (.logical (.literal (.boolean false)) (.kwAnd 1)
        (.assignment ⟨"x", 1⟩ (.literal .nil))) =
      .ok (Value.boolean false) (.global [])
    ∧ evalExpr (.global []) (.logical (.literal (.string "")) (.kwOr 1)
        (.literal (.number (.fin 9 false)))) =
      .ok (Value.string "") (.global [])
    ∧ (truthy Value.nil = false ∧ truthy (Value.boolean false) = false) := by
  refine ⟨?_, ?_, ?_, ?_, ?_⟩
  · exact (c6_logical_short_circuit.1 (.global []) (.global [])
      (.literal (.boolean true)) (.assignment ⟨"x", 1⟩ (.literal .nil)) 1
      (Value.boolean true) rfl).1 rfl
  · exact (c6_logical_short_circuit.1 (.global []) (.global [])
      (.literal (.boolean false)) (.assignment ⟨"x", 1⟩ (.literal .nil)) 1
      (Value.boolean false) rfl).2.2.1 rfl
  · exact (c6_logical_short_circuit.1 (.global []) (.global [])
      (.literal (.string "")) (.literal (.number (.fin 9 false))) 1
      (Value.string "") rfl).1 rfl
  · exact (c6_logical_short_circuit.2 Value.nil).mpr (Or.inl rfl)
  · exact (c6_logical_short_circuit.2 (Value.boolean false)).mpr (Or.inr rfl)

/-- C7: the binary `/` on two Numbers raises `ZeroDivision` exactly when the
divisor compares IEEE-equal to `0.0` (so `-0.0` is treated as zero, and a
finite divisor is "zero" iff its value is 0), returns the Number quotient
otherwise, and raises `ArgumentError` whenever either operand is not a
Number. -/
theorem c7_division (l r : F64) (v w : Value) :
    (F64.beq r (.fin 0 false) = true →
      ∃ m, Value.divV (.number l) (.number r) = .error (.zeroDivision m))
    ∧ (F64.beq r (.fin 0 false) = false →
      Value.divV (.number l) (.number r) = .ok (.number (F64.div l r)))
    ∧ ((v.isNumber = false ∨ w.isNumber = false) →
      ∃ m, Value.divV v w = .error (.argumentError m))
    ∧ (∀ (q : ℚ) (s : Bool), F64.beq (.fin q s) (.fin 0 false) = true ↔ q = 0)
    ∧ (F64.beq .nan (.fin 0 false) = false) := by
  refine ⟨?_, ?_, ?_, ?_, ?_⟩
  · intro h
    exact ⟨"Cannot divide " ++ l.display ++ " by zero", by simp [Value.divV, h]⟩
  · intro h
    simp [Value.divV, h]
  · intro h
    cases v <;> cases w <;>
      first
        | exact ⟨_, rfl⟩
        | (exfalso; simp [Value.isNumber] at h)
  · intro q s
    simp [F64.beq]
  · rfl

/-- Witness for C7: dividing by `-0.0` raises `ZeroDivision`, `1/2` is the
exact quotient, and dividing a Number by a String raises `ArgumentError`. -/
theorem c7_division_witness :
    (∃ m, Value.divV (.number (.fin 1 false)) (.number (.fin 0 true)) =
      .error (.zeroDivision m))
    ∧ Value.divV (.number (.fin 1 false)) (.number (.fin 2 false)) =
      .ok (.number (F64.div (.fin 1 false) (.fin 2 false)))
    ∧ (∃ m, Value.divV (.number (.fin 1 false)) (.string "a") =
      .error (.argumentError m)) := by
  refine ⟨?_, ?_, ?_⟩
  · exact (c7_division (.fin 1 false) (.fin 0 true) .nil .nil).1 (by decide)
  · exact (c7_division (.fin 1 false) (.fin 2 false) .nil .nil).2.1 (by decide)
  · exact (c7_division (.fin 1 false) (.fin 0 false) (.number (.fin 1 false))
      (.string "a")).2.2.1 (Or.inr rfl)

/-- C8: the comparisons `<`, `<=`, `>`, `>=` are Boolean-valued and never
raise; they are `false` whenever the two operands are not both Numbers (in
particular `>=` on two equal Strings), and also on NaN.  `==` holds iff the
operands share a variant with equal carried data (IEEE on Numbers, so
`NaN == NaN` is false), `!=` is its negation, and different variants are
never equal. -/
theorem c8_comparisons_and_equality (v w : Value) :
    ((v.isNumber && w.isNumber) = false →
      Value.ltV v w = false ∧ Value.leV v w = false ∧
      Value.gtV v w = false ∧ Value.geV v w = false)
    ∧ (∀ line,
        applyBinary (.greater line) v w = .ok (.boolean (Value.gtV v w)) ∧
        applyBinary (.greaterEqual line) v w = .ok (.boolean (Value.geV v w)) ∧
        applyBinary (.less line) v w = .ok (.boolean (Value.ltV v w)) ∧
        applyBinary (.lessEqual line) v w = .ok (.boolean (Value.leV v w)))
    ∧ Value.beq v w = specEq v w
    ∧ (∀ line, applyBinary (.bangEqual line) v w = .ok (.boolean (!specEq v w)))
    ∧ Value.beq (.number .nan) (.number .nan) = false := by
  refine ⟨?_, ?_, ?_, ?_, ?_⟩
  · intro h
    cases v <;> cases w <;>
      simp_all [Value.isNumber, Value.ltV, Value.leV, Value.gtV, Value.geV, Value.pcmp]
  · intro line
    exact ⟨rfl, rfl, rfl, rfl⟩
  · cases v <;> cases w <;> simp [Value.beq, specEq]
  · intro line
    have h : Value.beq v w = specEq v w := by
      cases v <;> cases w <;> simp [Value.beq, specEq]
    simp [applyBinary, h]
  · rfl

/-- Witness for C8: `>=` on two equal Strings is false (and raises nothing),
`NaN == NaN` is false while `NaN != NaN` evaluates to `Boolean true`. -/
theorem c8_comparisons_and_equality_witness :
    Value.geV (.string "a") (.string "a") = false
    ∧ applyBinary (.greaterEqual 1) (.string "a") (.string "a") =
        .ok (.boolean (Value.geV (.string "a") (.string "a")))
    ∧ Value.beq (.number .nan) (.number .nan) = false
    ∧ applyBinary (.bangEqual 1) (.number .nan) (.number .nan) =
        .ok (.boolean (!specEq (.number .nan) (.number .nan))) := by
  refine ⟨?_, ?_, ?_, ?_⟩
  · exact ((c8_comparisons_and_equality (.string "a") (.string "a")).1 rfl).2.2.2
  · exact ((c8_comparisons_and_equality (.string "a") (.string "a")).2.1 1).2.1
  · exact (c8_comparisons_and_equality (.number .nan) (.number .nan)).2.2.2.2
  · exact (c8_comparisons_and_equality (.number .nan) (.number .nan)).2.2.2.1 1

/-- C10: an assignment expression evaluates its right-hand side before
checking that the target is bound; when the target is unbound anywhere in the
chain the result is `UndefinedVariable`, but the environment returned is the
one *after* the right-hand side ran — its side effects persist. -/
theorem c10_assignment_rhs_effects_persist
    (env env1 : Environment) (n : String) (line : Nat) (rhs : Expr) (v : Value) :
    evalExpr env rhs = .ok v env1 →
    nearestLookup env1 n = none →
    evalExpr env (.assignment ⟨n, line⟩ rhs) =
      .err (.undefinedVariable (n ++ " variable is not defined")) env1 := by
  intro hr hn
  simp [evalExpr, hr, Environment.assign_spec_unbound env1 n v hn]

/-- Witness for C10: assigning to unbound `b` where the right-hand side is
itself an assignment to the bound `a`; the failure reports
`UndefinedVariable` yet `a`'s new value persists (the resulting environment
differs from the starting one). -/
theorem c10_assignment_rhs_effects_persist_witness :
    evalExpr (.global [("a", Value.nil)])
        (.assignment ⟨"b", 1⟩ (.assignment ⟨"a", 1⟩ (.literal (.boolean true)))) =
      .err (.undefinedVariable ("b" ++ " variable is not defined"))
        (.global [("a", Value.boolean true)])
    ∧ Environment.global [("a", Value.boolean true)] ≠
        Environment.global [("a", Value.nil)] := by
  constructor
  · exact c10_assignment_rhs_effects_persist (.global [("a", Value.nil)])
      (.global [("a", Value.boolean true)]) "b" 1
      (.assignment ⟨"a", 1⟩ (.literal (.boolean true))) (Value.boolean true)
      rfl (by decide)
  · decide

/-! ## Concrete pipeline evaluations

The remaining claims are settled by evaluating the translated scanner and
recursive-descent code on the inputs the claims name. -/

/-- The program of end-to-end scenario 2. -/
def scenario2Source : String := "var x = \"hi\"; print x + \" there\";"

/-- The token list the scanner actually produces for scenario 2: after the
closing quote of `"hi"` is counted twice, the byte cursor runs one ahead of
the character iterator, so `print` is lexed as the identifier `"rint "`,
`x` as `" "`, and the final `;` is lost. -/
def scenario2Tokens : List Token :=
  [Token.kwVar 1, Token.identifier ⟨"x", 1⟩, Token.equal 1,
   Token.string 1 "hi", Token.semicolon 1, Token.identifier ⟨"rint ", 1⟩,
   Token.identifier ⟨" ", 1⟩, Token.plus 1, Token.string 1 " there",
   Token.eof]

/-- The parse diagnostics for those tokens: `primary` has no arm for string
tokens, so the initializer parses as Nil with `"hi"` unconsumed, and the
mangled tail produces a doubled missing-semicolon report. -/
def scenario2Errs : List String :=
  [lineErr 1 msgSemiAfterVarDecl, lineErr 1 msgSemiAfterValue,
   lineErr 1 msgSemiAfterValue]

/-- C1: the end-to-end scenario `var x = "hi"; print x + " there";` does
not print `hi there`.  Scanning succeeds without diagnostics but yields a
corrupted token list; parsing that list produces three diagnostics and no
usable statements, so the pipeline halts at the parse stage with no
output. -/
theorem c1_scenario2_fails :
    scanF 40 scenario2Source.data = .ok scenario2Tokens []
    ∧ parseF 40 scenario2Tokens = .ok [] scenario2Errs
    ∧ runModel 40 scenario2Source = .parseErrs [] scenario2Errs := by
  have hscan : scanF 40 scenario2Source.data = .ok scenario2Tokens [] := rfl
  have hparse : parseF 40 scenario2Tokens = .ok [] scenario2Errs := rfl
  refine ⟨hscan, hparse, ?_⟩
  simp [runModel, hscan, hparse, scenario2Errs]

/-- C2: scanning can abort.  On `1.5+2` the fraction scan's `take_while`
swallows the `+` while the byte cursor stays behind, so the next "number"
lexeme is the slice `"+"` and `parse().unwrap()` panics; on `"hi"abc` the
double-counted closing quote pushes the cursor past the end and slicing the
identifier lexeme panics. -/
theorem c2_scanner_panics :
    scanF 20 "1.5+2".data = .panicked
    ∧ scanF 20 "\"hi\"abc".data = .panicked := ⟨rfl, rfl⟩

/-- C3: parsing can abort.  When the very first token fails (here the `for`
keyword, for which no grammar exists, so `primary` consumes nothing), the
missing-semicolon report calls `previous()` with `current == 0`, which
underflows the index and panics before any diagnostic is recorded. -/
theorem c3_leading_for_panics :
    parseF 20 [Token.kwFor 1, Token.eof] = .panicked := rfl

/-- C9: the newline that terminates a `//` comment is consumed by the
comment's `take_while` and never reaches the `'\n'` arm, so the line counter
is not incremented: the token after a comment line carries line 1, not
line 2.  A bare newline outside a comment does increment the counter. -/
theorem c9_comment_newline_not_counted :
    scanF 20 "// c\n+".data = .ok [Token.plus 1, Token.eof] []
    ∧ scanF 20 "\n+".data = .ok [Token.plus 2, Token.eof] [] := ⟨rfl, rfl⟩

end RLox
